import Mathlib

/-
Verification development for the mojovoice repository.

Shallow embedding of the daemon request handlers (src/daemon/server.rs),
the Candle Whisper decoding engine (src/transcribe/candle_engine.rs) and
the audio capture post-processing (src/audio/mod.rs).

Conventions of the embedding:
- Rust f32 sample values are modelled as rationals; every concrete value
  used below is exactly representable in f32 and every operation on them
  in the modelled paths is exact, so the rational model agrees with the
  f32 computation on those inputs.
- Effectful collaborators (the capture thread, the transcription engine,
  config loading) are passed in as explicit oracle functions; fallible
  Rust calls become Except values.  A Rust handler that propagates an
  error with the question-mark operator is modelled as returning
  Except.error.
- Machine integers (usize) stay within ranges far below 2^64 in all the
  modelled arithmetic, so they are modelled as Nat.
-/

namespace MojoVoice

/-! ## Daemon protocol and server state (src/daemon/protocol.rs, server.rs) -/

/-- Response messages of the daemon protocol (enum DaemonResponse in
src/daemon/protocol.rs).  The Status payload is irrelevant to the claims
and is kept abstract as three fields like in the source. -/
inductive DaemonResponse where
  | ok (message : String)
  | recording
  | success (text : String)
  | error (message : String)
  | status (modelName : String) (gpuEnabled : Bool) (gpuName : String)
deriving DecidableEq, Repr

/-- Recording session state guarded by the mutex in struct DaemonServer
(src/daemon/server.rs, struct RecordingState): an optional join handle for
the background capture thread, and an optional audio buffer.  The handle
type is abstract. -/
structure RecState (H : Type) where
  handle : Option H
  audio : Option (List ℚ)
deriving Repr

/-- Embedding of DaemonServer::handle_start_recording (server.rs lines
233-261).  If a capture thread handle is present the handler returns the
AlreadyRecording error without touching the state.  Otherwise the marker
file creation and signal-handler setup (both fallible, modelled by the
sideEffects oracle) run, a capture thread is spawned (its handle supplied
by spawnHandle) and the state is replaced. -/
def handle_start_recording {H : Type} (sideEffects : Except Unit Unit)
    (spawnHandle : H) (st : RecState H) :
    Except Unit (RecState H × DaemonResponse) :=
  match st.handle with
  | some _ => Except.ok (st, DaemonResponse.error "Already recording")
  | none =>
    match sideEffects with
    | Except.error _ => Except.error ()
    | Except.ok _ =>
      Except.ok ({ handle := some spawnHandle, audio := none },
                 DaemonResponse.recording)

/-- Embedding of DaemonServer::handle_cancel_recording (server.rs lines
264-314).  With no handle present the handler silently succeeds and the
state is untouched (Option.take on None leaves None).  With a handle, the
thread is joined (joinThread; a panicked join propagates as a handler
error) and the samples are discarded. -/
def handle_cancel_recording {H : Type} (joinThread : H → Except Unit (List ℚ))
    (st : RecState H) : Except Unit (RecState H × DaemonResponse) :=
  match st.handle with
  | none => Except.ok (st, DaemonResponse.ok "cancelled")
  | some h =>
    match joinThread h with
    | Except.error _ => Except.error ()
    | Except.ok _ =>
      Except.ok ({ st with handle := none }, DaemonResponse.ok "cancelled")

/-- Embedding of DaemonServer::handle_stop_recording (server.rs lines
316-408).  joinThread returns the thread's own Result (outer error: the
thread panicked; inner error: capture failed), both propagated with the
double question-mark.  configLoad models crate::config::load.  The
transcriber oracle maps the captured samples to the engine's Result. -/
def handle_stop_recording {H : Type}
    (joinThread : H → Except Unit (Except Unit (List ℚ)))
    (configLoad : Except Unit Unit)
    (transcriber : List ℚ → Except String String)
    (st : RecState H) : Except Unit (RecState H × DaemonResponse) :=
  match st.handle with
  | none => Except.ok (st, DaemonResponse.error "Not recording")
  | some h =>
    match joinThread h with
    | Except.error _ => Except.error ()
    | Except.ok (Except.error _) => Except.error ()
    | Except.ok (Except.ok samples) =>
      if samples.isEmpty then
        Except.ok ({ st with handle := none },
                   DaemonResponse.error "No audio captured")
      else
        match configLoad with
        | Except.error _ => Except.error ()
        | Except.ok _ =>
          match transcriber samples with
          | Except.error e =>
            Except.ok ({ st with handle := none },
                       DaemonResponse.error ("Transcription error: " ++ e))
          | Except.ok text =>
            if text.isEmpty then
              Except.ok ({ st with handle := none },
                         DaemonResponse.error "No speech detected")
            else
              Except.ok ({ st with handle := none },
                         DaemonResponse.success text)

/-- Embedding of DaemonServer::handle_transcribe_audio (server.rs lines
411-447): the one-shot file-transcription path.  It never touches the
recording session state. -/
def handle_transcribe_audio (transcriber : List ℚ → Except String String)
    (samples : List ℚ) : Except Unit DaemonResponse :=
  if samples.isEmpty then
    Except.ok (DaemonResponse.error "No audio samples provided")
  else
    match transcriber samples with
    | Except.error e =>
      Except.ok (DaemonResponse.error ("Transcription error: " ++ e))
    | Except.ok text =>
      if text.isEmpty then
        Except.ok (DaemonResponse.success "(no speech detected)")
      else
        Except.ok (DaemonResponse.success text)

/-! ## Candle decoding engine (src/transcribe/candle_engine.rs) -/

/-- Special token ids resolved from the tokenizer at decode time (struct
SpecialTokens, candle_engine.rs lines 703-710). -/
structure SpecialTokens where
  sotToken : ℕ
  eotToken : ℕ
  transcribeToken : ℕ
  noTimestampsToken : ℕ
  languageToken : ℕ
deriving DecidableEq, Repr

/-- Embedding of CandleEngine::encode_initial_prompt (candle_engine.rs
lines 285-312): the tokenized prompt, truncated to MAX_PROMPT_TOKENS = 50
tokens; no prompt yields the empty token list.  The promptTokens argument
stands for the tokenizer encoding of the configured prompt string. -/
def encode_initial_prompt (promptTokens : Option (List ℕ)) : List ℕ :=
  match promptTokens with
  | some tokens => if tokens.length > 50 then tokens.take 50 else tokens
  | none => []

/-- Initial token sequence built by decode_at_temperature (candle_engine.rs
lines 352-366): start-of-transcript, language, transcribe and
no-timestamps tokens, unconditionally, followed by the truncated prompt. -/
def initialTokenSequence (st : SpecialTokens) (promptTokens : Option (List ℕ)) :
    List ℕ :=
  [st.sotToken, st.languageToken, st.transcribeToken, st.noTimestampsToken] ++
    encode_initial_prompt promptTokens

/-- Initial token sequence as the specification describes it: a shape that
omits the language and task tokens when the model is English-only and
includes them when it is multilingual, followed by the truncated prompt.
This definition follows the wording of the spec, for comparison with
initialTokenSequence, which is translated from the source. -/
def initialTokenSequenceSpec (isEnglishOnly : Bool) (st : SpecialTokens)
    (promptTokens : Option (List ℕ)) : List ℕ :=
  (if isEnglishOnly then [st.sotToken, st.noTimestampsToken]
   else [st.sotToken, st.languageToken, st.transcribeToken, st.noTimestampsToken]) ++
    encode_initial_prompt promptTokens

/-- Embedding of the greedy decoding loop of decode_at_temperature
(candle_engine.rs lines 393-491).  The decoder, logits projection,
suppression mask, temperature scaling and argmax are abstracted into the
oracle nextToken, a pure function of the current token sequence (the
engine flushes its attention cache on the first step, so each decode call
is a function of the growing sequence).  Arguments of the worker:
fuel (remaining iterations of the for loop over 0..max_tokens), cur
(current_tokens), res (result_tokens), lastTok (last_token) and rc
(repeat_count).  The loop stops on the end-of-text token, on fuel
exhaustion, or when the same token is produced MAX_REPEATS = 3 times in a
row; a chosen token is pushed to current_tokens and, when the current
length exceeds start_result_idx, also to result_tokens. -/
def decodeLoop (nextToken : List ℕ → ℕ) (eotToken : ℕ) (startResultIdx : ℕ) :
    ℕ → List ℕ → List ℕ → Option ℕ → ℕ → List ℕ
  | 0, _, res, _, _ => res
  | fuel + 1, cur, res, lastTok, rc =>
    let t := nextToken cur
    if t = eotToken then res
    else
      match lastTok with
      | some l =>
        if l = t then
          if rc + 1 ≥ 3 then res
          else
            decodeLoop nextToken eotToken startResultIdx fuel (cur ++ [t])
              (if startResultIdx < (cur ++ [t]).length then res ++ [t] else res)
              (some t) (rc + 1)
        else
          decodeLoop nextToken eotToken startResultIdx fuel (cur ++ [t])
            (if startResultIdx < (cur ++ [t]).length then res ++ [t] else res)
            (some t) 0
      | none =>
        decodeLoop nextToken eotToken startResultIdx fuel (cur ++ [t])
          (if startResultIdx < (cur ++ [t]).length then res ++ [t] else res)
          (some t) rc

/-- Result tokens produced by one decode_at_temperature call
(candle_engine.rs lines 372-491): start_result_idx is the initial sequence
length and the loop runs for max_tokens = 448 − start_result_idx
iterations (usize saturating_sub, which is Nat subtraction). -/
def decodeResultTokens (nextToken : List ℕ → ℕ) (eotToken : ℕ)
    (initial : List ℕ) : List ℕ :=
  decodeLoop nextToken eotToken initial.length (448 - initial.length)
    initial [] none 0

/-! ### Long-audio chunking (Transcriber::transcribe, candle_engine.rs lines 626-700)

The constants come from lines 17-20: CHUNK_LENGTH_SECS = 30.0,
CHUNK_OVERLAP_SECS = 5.0, SAMPLE_RATE = 16000.  The f32 products
30.0 * 16000.0 = 480000 and 5.0 * 16000.0 = 80000 are exact, so
chunk_samples = 480000, overlap_samples = 80000 and
stride = chunk_samples − overlap_samples = 400000 as Nat.  The audio is
abstracted to its length n in samples; a window is the index pair
(offset, end) passed to transcribe_chunk. -/

/-- List of windows decoded by the chunking loop of transcribe, in order:
while offset < n, the window (offset, min (offset+480000) n) is decoded;
then offset advances by the stride 400000, and if the next full window
would overrun while offset is still inside the audio, the remainder
window (offset, n) is decoded only when it is strictly longer than the
overlap (80000 samples), and the loop breaks. -/
def transcribeWindows (n : ℕ) (off : ℕ) : List (ℕ × ℕ) :=
  if _h : off < n then
    (off, min (off + 480000) n) ::
      (if n < off + 400000 + 480000 ∧ off + 400000 < n then
        (if 80000 < n - (off + 400000) then [(off + 400000, n)] else [])
      else transcribeWindows n (off + 400000))
  else []
termination_by n - off
decreasing_by omega

/-- Number of windows decoded for an n-sample long audio input. -/
def countChunks (n : ℕ) : ℕ := (transcribeWindows n 0).length

/-- What a decoded window contributes to the collected results
(candle_engine.rs lines 666-675 and 685-689): a failed decode or an empty
text contributes nothing, a nonempty text is kept. -/
def keepText (dec : ℕ → ℕ → Except Unit (List Char)) (w : ℕ × ℕ) :
    Option (List Char) :=
  match dec w.1 w.2 with
  | Except.ok t => if t = [] then none else some t
  | Except.error _ => none

/-- The chunking loop itself, collecting the kept window texts in order.
The oracle dec maps a window (offset, end) to the transcribe_chunk result
on audio[offset..end]. -/
def transcribeChunkLoop (dec : ℕ → ℕ → Except Unit (List Char)) (n off : ℕ) :
    List (List Char) :=
  if _h : off < n then
    (keepText dec (off, min (off + 480000) n)).toList ++
      (if n < off + 400000 + 480000 ∧ off + 400000 < n then
        (if 80000 < n - (off + 400000) then (keepText dec (off + 400000, n)).toList
         else [])
      else transcribeChunkLoop dec n (off + 400000))
  else []
termination_by n - off
decreasing_by omega

/-- Embedding of Vec::join with a one-character separator, as used by
results.join(" ") (candle_engine.rs line 696), on strings modelled as
character lists. -/
def joinSep : List (List Char) → List Char
  | [] => []
  | [p] => p
  | p :: ps => p ++ ' ' :: joinSep ps

/-- Embedding of str::trim (used on the decoded text, candle_engine.rs
line 507): strip leading and trailing whitespace. -/
def trimChars (s : List Char) : List Char :=
  ((s.dropWhile Char.isWhitespace).reverse.dropWhile Char.isWhitespace).reverse

/-- Embedding of Transcriber::transcribe for CandleEngine (candle_engine.rs
lines 626-700).  Empty audio returns the empty string.  The branch
condition duration_secs <= 30.0 is n / 16000 ≤ 30 computed in f32, which
agrees with n ≤ 480000 for every audio length below the f32 integer range
(the division result nearest to 30.0 at n = 480001 is already above 30.0).
The short path calls transcribe_chunk directly, so its error propagates;
the chunked path joins the kept texts with a single space and is
infallible. -/
def transcribeModel (dec : ℕ → ℕ → Except Unit (List Char)) (n : ℕ) :
    Except Unit (List Char) :=
  if n = 0 then Except.ok []
  else if n ≤ 480000 then dec 0 n
  else Except.ok (joinSep (transcribeChunkLoop dec n 0))

/-! ### Temperature fallback (decode_with_fallback, candle_engine.rs lines 531-562)

The constants of lines 13-15 are TEMPERATURES = [0.0, 0.2, 0.4, 0.6, 0.8,
1.0], COMPRESSION_RATIO_THRESHOLD = 2.4 and LOGPROB_THRESHOLD = -1.0.  The
f64 values are modelled by the rationals they denote; since the reals the
doubles denote are ordered the same way as the doubles themselves, the
comparison logic is represented faithfully.  The threshold value 2.4 is
attainable by an actual decode (e.g. twelve result tokens over a
five-character text give a quotient that rounds to the f64 nearest 2.4,
the very value the code compares against).  A decode_at_temperature call
is abstracted into the oracle attempt, mapping a temperature to an error
or to the triple (text, avg_logprob, compression_ratio). -/

/-- Temperature ladder of candle_engine.rs line 13. -/
def TEMPERATURES : List ℚ := [0, 2/10, 4/10, 6/10, 8/10, 1]

/-- Embedding of the for loop of decode_with_fallback: i is the enumerate
index.  A failed attempt is skipped; on the last rung (index
TEMPERATURES.length − 1) a successful text is accepted unconditionally;
otherwise it is accepted unless the compression ratio exceeds 2.4 or the
average log-probability is below −1.0.  An exhausted ladder is the bail
error (all temperature fallbacks failed). -/
def fallbackGo (attempt : ℚ → Except Unit (List Char × ℚ × ℚ)) (i : ℕ) :
    List ℚ → Except Unit (List Char)
  | [] => Except.error ()
  | temp :: rest =>
    match attempt temp with
    | Except.ok (text, lp, cr) =>
      if i = TEMPERATURES.length - 1 then Except.ok text
      else if cr > 24/10 ∨ lp < -1 then fallbackGo attempt (i + 1) rest
      else Except.ok text
    | Except.error _ => fallbackGo attempt (i + 1) rest

/-- Embedding of CandleEngine::decode_with_fallback. -/
def decodeWithFallback (attempt : ℚ → Except Unit (List Char × ℚ × ℚ)) :
    Except Unit (List Char) :=
  fallbackGo attempt 0 TEMPERATURES

/-- Selection rule as the claim words it: the first of the earlier rungs
whose compression ratio is strictly below 2.4 and whose average
log-probability is strictly above −1.0 is accepted; failing that, the
final rung (temperature 1.0) is accepted unconditionally.  This definition
follows the wording of the spec, for comparison with decodeWithFallback,
which is translated from the source. -/
def fallbackClaimGo (attempt : ℚ → Except Unit (List Char × ℚ × ℚ)) :
    List ℚ → Except Unit (List Char)
  | [] =>
    match attempt 1 with
    | Except.ok (text, _, _) => Except.ok text
    | Except.error _ => Except.error ()
  | temp :: rest =>
    match attempt temp with
    | Except.ok (text, lp, cr) =>
      if cr < 24/10 ∧ lp > -1 then Except.ok text else fallbackClaimGo attempt rest
    | Except.error _ => fallbackClaimGo attempt rest

/-- The claim's selection applied to the non-final rungs. -/
def fallbackClaimSelection (attempt : ℚ → Except Unit (List Char × ℚ × ℚ)) :
    Except Unit (List Char) :=
  fallbackClaimGo attempt (TEMPERATURES.take 5)

/-- Amended selection rule matching the code: thresholds are inclusive
(compression ratio at most 2.4, average log-probability at least −1.0). -/
def fallbackAcceptedGo (attempt : ℚ → Except Unit (List Char × ℚ × ℚ)) :
    List ℚ → Except Unit (List Char)
  | [] =>
    match attempt 1 with
    | Except.ok (text, _, _) => Except.ok text
    | Except.error _ => Except.error ()
  | temp :: rest =>
    match attempt temp with
    | Except.ok (text, lp, cr) =>
      if cr ≤ 24/10 ∧ -1 ≤ lp then Except.ok text else fallbackAcceptedGo attempt rest
    | Except.error _ => fallbackAcceptedGo attempt rest

/-- The amended selection applied to the non-final rungs. -/
def fallbackAcceptedSelection (attempt : ℚ → Except Unit (List Char × ℚ × ℚ)) :
    Except Unit (List Char) :=
  fallbackAcceptedGo attempt (TEMPERATURES.take 5)

/-- A boundary oracle: the temperature-0 attempt sits exactly on both
thresholds (compression ratio 2.4, average log-probability −1.0), every
later attempt passes strictly with a different text. -/
def boundaryAttempt : ℚ → Except Unit (List Char × ℚ × ℚ) := fun temp =>
  if temp = 0 then Except.ok (['a'], -1, 24/10) else Except.ok (['b'], 0, 0)

/-! ### Stereo downmix (to_mono, src/audio/mod.rs lines 403-412) -/

/-- Embedding of the chunks_exact(2) averaging pipeline: interleaved pairs
are averaged; chunks_exact yields only complete pairs, so a trailing
unpaired element is not part of any chunk and produces no output. -/
def avgPairs : List ℚ → List ℚ
  | a :: b :: rest => ((a + b) / 2) :: avgPairs rest
  | _ => []

/-- Embedding of to_mono: with exactly 2 channels the buffer is downmixed
by averaging interleaved pairs, otherwise it is returned unchanged. -/
def to_mono (samples : List ℚ) (channels : ℕ) : List ℚ :=
  if channels = 2 then avgPairs samples else samples

end MojoVoice

namespace MojoVoice

/-! ## Theorems -/

/-- C1: a request issued in a session state where it is invalid leaves the
recording state unchanged and returns the designated response:
StartRecording while a recording is in progress returns the
AlreadyRecording error, StopRecording while idle returns the NotRecording
error, and CancelRecording while idle is a no-op success. -/
theorem c1_invalid_state_requests {H : Type}
    (sideEffects : Except Unit Unit) (spawnHandle : H)
    (joinCancel : H → Except Unit (List ℚ))
    (joinStop : H → Except Unit (Except Unit (List ℚ)))
    (configLoad : Except Unit Unit)
    (transcriber : List ℚ → Except String String)
    (st : RecState H) :
    (st.handle.isSome →
      handle_start_recording sideEffects spawnHandle st =
        Except.ok (st, DaemonResponse.error "Already recording")) ∧
    (st.handle = none →
      handle_stop_recording joinStop configLoad transcriber st =
        Except.ok (st, DaemonResponse.error "Not recording")) ∧
    (st.handle = none →
      handle_cancel_recording joinCancel st =
        Except.ok (st, DaemonResponse.ok "cancelled")) := by
  refine ⟨fun hbusy => ?_, fun hidle => ?_, fun hidle => ?_⟩
  · cases hst : st.handle with
    | none => rw [hst] at hbusy; simp [Option.isSome] at hbusy
    | some h => simp [handle_start_recording, hst]
  · simp [handle_stop_recording, hidle]
  · simp [handle_cancel_recording, hidle]

/-- C1 witness: concrete busy and idle states with trivial oracles. -/
theorem c1_invalid_state_requests_witness :
    ((⟨some (), none⟩ : RecState Unit).handle.isSome ∧
      handle_start_recording (Except.ok ()) () (⟨some (), none⟩ : RecState Unit) =
        Except.ok ((⟨some (), none⟩ : RecState Unit),
          DaemonResponse.error "Already recording")) ∧
    ((⟨none, none⟩ : RecState Unit).handle = none ∧
      handle_stop_recording (fun _ => Except.ok (Except.ok []))
          (Except.ok ()) (fun _ => Except.ok "hi")
          (⟨none, none⟩ : RecState Unit) =
        Except.ok ((⟨none, none⟩ : RecState Unit),
          DaemonResponse.error "Not recording") ∧
      handle_cancel_recording (fun _ => Except.ok [])
          (⟨none, none⟩ : RecState Unit) =
        Except.ok ((⟨none, none⟩ : RecState Unit),
          DaemonResponse.ok "cancelled")) := by
  refine ⟨⟨rfl, ?_⟩, rfl, ?_, ?_⟩
  · exact (c1_invalid_state_requests (Except.ok ()) () (fun _ => Except.ok [])
      (fun _ => Except.ok (Except.ok [])) (Except.ok ()) (fun _ => Except.ok "hi")
      ⟨some (), none⟩).1 rfl
  · exact (c1_invalid_state_requests (Except.ok ()) () (fun _ => Except.ok [])
      (fun _ => Except.ok (Except.ok [])) (Except.ok ()) (fun _ => Except.ok "hi")
      ⟨none, none⟩).2.1 rfl
  · exact (c1_invalid_state_requests (Except.ok ()) () (fun _ => Except.ok [])
      (fun _ => Except.ok (Except.ok [])) (Except.ok ()) (fun _ => Except.ok "hi")
      ⟨none, none⟩).2.2 rfl

/-- C6: zero-sample handling.  A TranscribeAudio request with an empty
sample vector returns the explicit no-audio Error response; on the
live-recording stop path zero captured samples produce an explicit Error;
on the one-shot TranscribeAudio path an empty transcript is returned as a
distinct no-speech Success response.  All three paths are total functions
of the embedding, so none of them panics. -/
theorem c6_zero_sample_handling {H : Type}
    (joinStop : H → Except Unit (Except Unit (List ℚ)))
    (configLoad : Except Unit Unit)
    (transcriber : List ℚ → Except String String)
    (st : RecState H) (h : H) (samples : List ℚ) :
    (handle_transcribe_audio transcriber [] =
      Except.ok (DaemonResponse.error "No audio samples provided")) ∧
    (st.handle = some h → joinStop h = Except.ok (Except.ok []) →
      handle_stop_recording joinStop configLoad transcriber st =
        Except.ok ({ st with handle := none },
                   DaemonResponse.error "No audio captured")) ∧
    (samples ≠ [] → transcriber samples = Except.ok "" →
      handle_transcribe_audio transcriber samples =
        Except.ok (DaemonResponse.success "(no speech detected)")) := by
  refine ⟨by simp [handle_transcribe_audio], fun hh hj => ?_, fun hs ht => ?_⟩
  · simp [handle_stop_recording, hh, hj]
  · simp [handle_transcribe_audio, hs, ht]
    rfl

/-- C6 witness: the stop path with a captured-empty thread result and the
one-shot path with a nonempty input transcribed to the empty string. -/
theorem c6_zero_sample_handling_witness :
    handle_transcribe_audio (fun _ => Except.ok "") [] =
      Except.ok (DaemonResponse.error "No audio samples provided") ∧
    handle_stop_recording (fun (_ : Unit) => Except.ok (Except.ok []))
        (Except.ok ()) (fun _ => Except.ok "")
        (⟨some (), none⟩ : RecState Unit) =
      Except.ok (({ (⟨some (), none⟩ : RecState Unit) with handle := none }),
                 DaemonResponse.error "No audio captured") ∧
    handle_transcribe_audio (fun _ => Except.ok "") [0] =
      Except.ok (DaemonResponse.success "(no speech detected)") := by
  refine ⟨?_, ?_, ?_⟩
  · exact (c6_zero_sample_handling (fun (_ : Unit) => Except.ok (Except.ok []))
      (Except.ok ()) (fun _ => Except.ok "") ⟨some (), none⟩ () [0]).1
  · exact (c6_zero_sample_handling (fun (_ : Unit) => Except.ok (Except.ok []))
      (Except.ok ()) (fun _ => Except.ok "") ⟨some (), none⟩ () [0]).2.1 rfl rfl
  · exact (c6_zero_sample_handling (fun (_ : Unit) => Except.ok (Except.ok []))
      (Except.ok ()) (fun _ => Except.ok "") ⟨some (), none⟩ () [0]).2.2
      (by simp) rfl

/-- Unfolding equation for decodeLoop at successor fuel. -/
theorem decodeLoop_succ (nt : List ℕ → ℕ) (eot si fuel : ℕ) (cur res : List ℕ)
    (lastTok : Option ℕ) (rc : ℕ) :
    decodeLoop nt eot si (fuel + 1) cur res lastTok rc =
      if nt cur = eot then res
      else
        match lastTok with
        | some l =>
          if l = nt cur then
            if rc + 1 ≥ 3 then res
            else
              decodeLoop nt eot si fuel (cur ++ [nt cur])
                (if si < (cur ++ [nt cur]).length then res ++ [nt cur] else res)
                (some (nt cur)) (rc + 1)
          else
            decodeLoop nt eot si fuel (cur ++ [nt cur])
              (if si < (cur ++ [nt cur]).length then res ++ [nt cur] else res)
              (some (nt cur)) 0
        | none =>
          decodeLoop nt eot si fuel (cur ++ [nt cur])
            (if si < (cur ++ [nt cur]).length then res ++ [nt cur] else res)
            (some (nt cur)) rc := rfl

/-- Each loop iteration appends at most one token to the result list. -/
theorem decodeLoop_length_le (nt : List ℕ → ℕ) (eot si : ℕ) :
    ∀ (fuel : ℕ) (cur res : List ℕ) (lastTok : Option ℕ) (rc : ℕ),
      (decodeLoop nt eot si fuel cur res lastTok rc).length ≤ res.length + fuel := by
  intro fuel
  induction fuel with
  | zero => intro cur res lastTok rc; simp [decodeLoop]
  | succ n ih =>
    intro cur res lastTok rc
    rw [decodeLoop_succ]
    have hres : ∀ (res' : List ℕ) (x : ℕ),
        (if si < (cur ++ [x]).length then res' ++ [x] else res').length ≤
          res'.length + 1 := by
      intro res' x; split <;> simp
    split
    · omega
    · split
      · split
        · split
          · omega
          · exact le_trans (ih _ _ _ _) (by have := hres res (nt cur); omega)
        · exact le_trans (ih _ _ _ _) (by have := hres res (nt cur); omega)
      · exact le_trans (ih _ _ _ _) (by have := hres res (nt cur); omega)

/-- If the very first chosen token is the end-of-text token, the loop
returns the result accumulator unchanged. -/
theorem decodeLoop_eot (nt : List ℕ → ℕ) (eot si fuel : ℕ) (cur res : List ℕ)
    (lastTok : Option ℕ) (rc : ℕ) (h : nt cur = eot) :
    decodeLoop nt eot si fuel cur res lastTok rc = res := by
  cases fuel with
  | zero => rfl
  | succ n => rw [decodeLoop_succ, if_pos h]

/-- The truncated prompt never exceeds 50 tokens. -/
theorem encode_initial_prompt_length_le (p : Option (List ℕ)) :
    (encode_initial_prompt p).length ≤ 50 := by
  cases p with
  | none => simp [encode_initial_prompt]
  | some tokens =>
    simp only [encode_initial_prompt]
    split
    · simp
    · omega

/-- Length of the initial token sequence: four special tokens plus the
truncated prompt. -/
theorem initialTokenSequence_length (st : SpecialTokens) (p : Option (List ℕ)) :
    (initialTokenSequence st p).length = 4 + (encode_initial_prompt p).length := by
  simp [initialTokenSequence]
  omega

/-- C2: the greedy decode loop emits at most 448 − initial_sequence_length
result tokens, where the initial sequence is the special tokens followed
by the truncated prompt; and the loop stops immediately when the
end-of-text token is produced. -/
theorem c2_token_budget (nextToken : List ℕ → ℕ) (st : SpecialTokens)
    (p : Option (List ℕ)) :
    (decodeResultTokens nextToken st.eotToken (initialTokenSequence st p)).length ≤
      448 - (initialTokenSequence st p).length ∧
    (nextToken (initialTokenSequence st p) = st.eotToken →
      decodeResultTokens nextToken st.eotToken (initialTokenSequence st p) = []) := by
  constructor
  · have := decodeLoop_length_le nextToken st.eotToken
      (initialTokenSequence st p).length
      (448 - (initialTokenSequence st p).length)
      (initialTokenSequence st p) [] none 0
    simpa using this
  · intro h
    exact decodeLoop_eot _ _ _ _ _ _ _ _ h

/-- C2 witness: a decoder that immediately produces the end-of-text token
emits zero result tokens, within the budget. -/
theorem c2_token_budget_witness :
    (decodeResultTokens (fun _ => 0) (SpecialTokens.mk 1 0 2 3 4).eotToken
        (initialTokenSequence (SpecialTokens.mk 1 0 2 3 4) none)).length ≤
      448 - (initialTokenSequence (SpecialTokens.mk 1 0 2 3 4) none).length ∧
    decodeResultTokens (fun _ => 0) (SpecialTokens.mk 1 0 2 3 4).eotToken
        (initialTokenSequence (SpecialTokens.mk 1 0 2 3 4) none) = [] :=
  ⟨(c2_token_budget (fun _ => 0) (SpecialTokens.mk 1 0 2 3 4) none).1,
   (c2_token_budget (fun _ => 0) (SpecialTokens.mk 1 0 2 3 4) none).2 rfl⟩

/-- A constant decoder output drives the loop guard: after four fuel steps
with no previous token, exactly three copies of the token have been
appended and the loop breaks. -/
theorem decodeLoop_const (t eot si : ℕ) (h : t ≠ eot) :
    ∀ (k : ℕ) (cur res : List ℕ), si ≤ cur.length →
      decodeLoop (fun _ => t) eot si (k + 4) cur res none 0 = res ++ [t, t, t] := by
  intro k cur res hsi
  have hsi1 : si ≤ (cur ++ [t]).length := by simp; omega
  have hsi2 : si ≤ ((cur ++ [t]) ++ [t]).length := by simp; omega
  have hpush : ∀ (l : List ℕ), si ≤ l.length → si < (l ++ [t]).length := by
    intro l hl; simp; omega
  rw [show k + 4 = (k + 3) + 1 from rfl, decodeLoop_succ]
  simp only [if_neg h, if_pos (hpush cur hsi)]
  rw [show k + 3 = (k + 2) + 1 from rfl, decodeLoop_succ]
  simp only [if_neg h, if_pos rfl]
  rw [if_neg (show ¬ (0 + 1 ≥ 3) by omega), if_pos (hpush _ hsi1)]
  rw [show k + 2 = (k + 1) + 1 from rfl, decodeLoop_succ]
  simp only [if_neg h, if_pos rfl]
  rw [if_neg (show ¬ (0 + 1 + 1 ≥ 3) by omega), if_pos (hpush _ hsi2)]
  rw [decodeLoop_succ]
  simp only [if_neg h, if_pos rfl]
  rw [if_pos (show 0 + 1 + 1 + 1 ≥ 3 by omega)]
  simp

/-- C5: with a decoder model that produces the same non-end-of-text token
at every step, the greedy decode loop terminates after exactly three
consecutive repeats, emitting exactly three result tokens instead of
running to the token budget. -/
theorem c5_repeat_guard (t : ℕ) (st : SpecialTokens) (p : Option (List ℕ))
    (h : t ≠ st.eotToken) :
    decodeResultTokens (fun _ => t) st.eotToken (initialTokenSequence st p) =
      [t, t, t] := by
  have hlen : (initialTokenSequence st p).length ≤ 54 := by
    have := encode_initial_prompt_length_le p
    rw [initialTokenSequence_length]; omega
  have h4 : 448 - (initialTokenSequence st p).length =
      (448 - (initialTokenSequence st p).length - 4) + 4 := by omega
  unfold decodeResultTokens
  rw [h4]
  have := decodeLoop_const t st.eotToken (initialTokenSequence st p).length h
    (448 - (initialTokenSequence st p).length - 4) (initialTokenSequence st p) []
    (le_refl _)
  simpa using this

/-- C5 witness: a concrete constant decoder emits exactly three tokens. -/
theorem c5_repeat_guard_witness :
    (1 : ℕ) ≠ (SpecialTokens.mk 0 0 0 0 0).eotToken ∧
    decodeResultTokens (fun _ => 1) (SpecialTokens.mk 0 0 0 0 0).eotToken
      (initialTokenSequence (SpecialTokens.mk 0 0 0 0 0) none) = [1, 1, 1] :=
  ⟨by decide, c5_repeat_guard 1 (SpecialTokens.mk 0 0 0 0 0) none (by decide)⟩

/-- C8 counterexample: the code builds the same four special tokens for
every model; for an English-only model the specification prescribes a
shape without the language and task tokens, which differs from what the
code builds at every concrete token assignment. -/
theorem c8_english_only_counterexample :
    initialTokenSequence (SpecialTokens.mk 1 2 3 4 5) none ≠
      initialTokenSequenceSpec true (SpecialTokens.mk 1 2 3 4 5) none := by
  decide

/-- C8 amended: the initial token sequence always consists of the four
special tokens (start-of-transcript, language, transcribe, no-timestamps)
followed by the optional prompt truncated to 50 tokens, regardless of the
model; its shape always agrees with the multilingual shape of the spec. -/
theorem c8_initial_sequence_amended (st : SpecialTokens) (p : Option (List ℕ)) :
    initialTokenSequence st p =
      [st.sotToken, st.languageToken, st.transcribeToken, st.noTimestampsToken] ++
        (p.getD []).take 50 ∧
    (initialTokenSequence st p).length = 4 + min (p.getD []).length 50 ∧
    initialTokenSequence st p = initialTokenSequenceSpec false st p := by
  have h1 : initialTokenSequence st p =
      [st.sotToken, st.languageToken, st.transcribeToken, st.noTimestampsToken] ++
        (p.getD []).take 50 := by
    cases p with
    | none => simp [initialTokenSequence, encode_initial_prompt]
    | some tokens =>
      simp only [initialTokenSequence, encode_initial_prompt, Option.getD]
      congr 1
      split
      · rfl
      · exact (List.take_of_length_le (by omega)).symm
  refine ⟨h1, ?_, by simp [initialTokenSequence, initialTokenSequenceSpec]⟩
  rw [h1]
  simp [List.length_take]
  omega

/-- Window count of the chunking loop, as a closed formula: for audio
reaching past one offset window, the loop decodes
ceil((n − off − 480000) / 400000) + 1 windows. -/
theorem transcribeWindows_length (n : ℕ) :
    ∀ (k off : ℕ), n - off ≤ k → off + 480000 ≤ n →
      (transcribeWindows n off).length =
        (n - off - 480000 + 399999) / 400000 + 1 := by
  intro k
  induction k with
  | zero => intro off h1 h2; omega
  | succ k ih =>
    intro off h1 h2
    rw [transcribeWindows]
    rw [dif_pos (show off < n by omega)]
    by_cases hc : n < off + 400000 + 480000
    · rw [if_pos ⟨hc, by omega⟩]
      by_cases hrem : 80000 < n - (off + 400000)
      · rw [if_pos hrem]
        simp only [List.length_cons, List.length_nil]
        omega
      · rw [if_neg hrem]
        simp only [List.length_cons, List.length_nil]
        omega
    · rw [if_neg (by omega : ¬(n < off + 400000 + 480000 ∧ off + 400000 < n))]
      rw [List.length_cons]
      rw [ih (off + 400000) (by omega) (by omega)]
      omega

/-- C3: for 16 kHz audio of n samples with n > 480000 (longer than 30 s),
the chunking loop uses 30 s windows with 5 s overlap (25 s stride =
400000 samples) and decodes ceil((n − 480000) / 400000) + 1 windows in
total; for a whole number L of seconds this is ceil((L − 30) / 25) + 1.
The remainder-window condition (decoded only when strictly longer than
the 5 s overlap) is part of the transcribeWindows definition. -/
theorem c3_chunk_count (n : ℕ) (h : 480000 < n) :
    countChunks n = (n - 480000 + 400000 - 1) / 400000 + 1 ∧
    (∀ L : ℕ, 30 < L → n = L * 16000 →
      countChunks n = (L - 30 + 25 - 1) / 25 + 1) := by
  have base := transcribeWindows_length n n 0 (by omega) (by omega)
  constructor
  · unfold countChunks
    rw [base]
    omega
  · intro L hL hnL
    unfold countChunks
    rw [base]
    subst hnL
    omega

/-- C3 witness: 62.5 s of audio yields 3 decoded windows and 50 s of
audio yields 2, matching the ceiling formula. -/
theorem c3_chunk_count_witness :
    (480000 < 1000000 ∧
      countChunks 1000000 = (1000000 - 480000 + 400000 - 1) / 400000 + 1) ∧
    (480000 < 800000 ∧ 30 < 50 ∧
      countChunks 800000 = (50 - 30 + 25 - 1) / 25 + 1) :=
  ⟨⟨by omega, (c3_chunk_count 1000000 (by omega)).1⟩,
   ⟨by omega, by omega,
    (c3_chunk_count 800000 (by omega)).2 50 (by omega) (by norm_num)⟩⟩

/-- A dropped-prefix list starts with an element failing the predicate. -/
theorem head?_dropWhile_not (P : Char → Bool) :
    ∀ (l : List Char) (c : Char), (l.dropWhile P).head? = some c → P c = false := by
  intro l
  induction l with
  | nil => intro c hc; simp [List.dropWhile] at hc
  | cons a t ih =>
    intro c hc
    rw [List.dropWhile_cons] at hc
    by_cases hP : P a = true
    · rw [if_pos hP] at hc
      exact ih c hc
    · rw [if_neg hP] at hc
      simp only [List.head?_cons, Option.some.injEq] at hc
      subst hc
      simpa using hP

/-- dropWhile keeps the last element of a list it does not empty. -/
theorem getLast?_dropWhile (P : Char → Bool) :
    ∀ (l : List Char), l.dropWhile P ≠ [] →
      (l.dropWhile P).getLast? = l.getLast? := by
  intro l
  induction l with
  | nil => intro h; simp [List.dropWhile] at h
  | cons a t ih =>
    intro h
    rw [List.dropWhile_cons] at h ⊢
    by_cases hP : P a = true
    · rw [if_pos hP] at h ⊢
      have ht : t ≠ [] := by
        intro heq
        rw [heq] at h
        simp [List.dropWhile] at h
      rw [ih h]
      cases t with
      | nil => exact absurd rfl ht
      | cons b t2 => rw [List.getLast?_cons_cons]
    · rw [if_neg hP]

/-- The first character of a trimmed string is not whitespace. -/
theorem trimChars_head (s : List Char) (c : Char)
    (h : (trimChars s).head? = some c) : c.isWhitespace = false := by
  unfold trimChars at h
  rw [List.head?_reverse] at h
  have hne : (s.dropWhile Char.isWhitespace).reverse.dropWhile Char.isWhitespace ≠ [] := by
    intro heq
    rw [heq] at h
    simp at h
  rw [getLast?_dropWhile _ _ hne, List.getLast?_reverse] at h
  exact head?_dropWhile_not _ _ _ h

/-- The last character of a trimmed string is not whitespace. -/
theorem trimChars_getLast (s : List Char) (c : Char)
    (h : (trimChars s).getLast? = some c) : c.isWhitespace = false := by
  unfold trimChars at h
  rw [List.getLast?_reverse] at h
  exact head?_dropWhile_not _ _ _ h

/-- Joining a nonempty first piece yields a nonempty string. -/
theorem joinSep_ne_nil (p : List Char) (ps : List (List Char)) (hp : p ≠ []) :
    joinSep (p :: ps) ≠ [] := by
  cases ps with
  | nil => simpa [joinSep] using hp
  | cons q r => simp [joinSep]

/-- The first character of a joined list comes from one of the pieces. -/
theorem joinSep_head_mem :
    ∀ (pieces : List (List Char)) (c : Char), (∀ p ∈ pieces, p ≠ []) →
      (joinSep pieces).head? = some c → ∃ p, p ∈ pieces ∧ p.head? = some c := by
  intro pieces
  induction pieces with
  | nil => intro c _ h; simp [joinSep] at h
  | cons p ps ih =>
    intro c hne h
    cases ps with
    | nil => exact ⟨p, by simp, by simpa [joinSep] using h⟩
    | cons q r =>
      have hp : p ≠ [] := hne p (by simp)
      rw [show joinSep (p :: q :: r) = p ++ ' ' :: joinSep (q :: r) from rfl] at h
      rw [List.head?_append_of_ne_nil _ hp] at h
      exact ⟨p, by simp, h⟩

/-- The last character of a joined list comes from one of the pieces. -/
theorem joinSep_getLast_mem :
    ∀ (pieces : List (List Char)) (c : Char), (∀ p ∈ pieces, p ≠ []) →
      (joinSep pieces).getLast? = some c → ∃ p, p ∈ pieces ∧ p.getLast? = some c := by
  intro pieces
  induction pieces with
  | nil => intro c _ h; simp [joinSep] at h
  | cons p ps ih =>
    intro c hne h
    cases ps with
    | nil => exact ⟨p, by simp, by simpa [joinSep] using h⟩
    | cons q r =>
      have hq : q ≠ [] := hne q (by simp)
      have hquot : joinSep (q :: r) ≠ [] := joinSep_ne_nil q r hq
      rw [show joinSep (p :: q :: r) = p ++ ' ' :: joinSep (q :: r) from rfl] at h
      rw [List.getLast?_append_of_ne_nil _ (by simp)] at h
      have hstep : (' ' :: joinSep (q :: r)).getLast? = (joinSep (q :: r)).getLast? := by
        cases hJ : joinSep (q :: r) with
        | nil => exact absurd hJ hquot
        | cons x xs => exact List.getLast?_cons_cons
      rw [hstep] at h
      obtain ⟨p2, hp2, hl2⟩ := ih c (fun p hp => hne p (List.mem_cons_of_mem _ hp)) h
      exact ⟨p2, List.mem_cons_of_mem _ hp2, hl2⟩

/-- filterMap over a cons, written with Option.toList. -/
theorem filterMap_cons_toList (f : ℕ × ℕ → Option (List Char)) (w : ℕ × ℕ)
    (l : List (ℕ × ℕ)) :
    List.filterMap f (w :: l) = (f w).toList ++ List.filterMap f l := by
  cases h : f w <;> simp [List.filterMap_cons, h]

/-- The chunking loop collects exactly the kept texts of the decoded
windows, in order. -/
theorem transcribeChunkLoop_eq_filterMap (dec : ℕ → ℕ → Except Unit (List Char))
    (n : ℕ) :
    ∀ (k off : ℕ), n - off ≤ k →
      transcribeChunkLoop dec n off =
        (transcribeWindows n off).filterMap (keepText dec) := by
  intro k
  induction k with
  | zero =>
    intro off h
    rw [transcribeChunkLoop, transcribeWindows]
    rw [dif_neg (by omega : ¬ off < n), dif_neg (by omega : ¬ off < n)]
    rfl
  | succ k ih =>
    intro off h
    rw [transcribeChunkLoop, transcribeWindows]
    by_cases hlt : off < n
    · rw [dif_pos hlt, dif_pos hlt]
      rw [filterMap_cons_toList]
      by_cases hc : n < off + 400000 + 480000 ∧ off + 400000 < n
      · rw [if_pos hc, if_pos hc]
        by_cases hrem : 80000 < n - (off + 400000)
        · rw [if_pos hrem, if_pos hrem]
          rw [filterMap_cons_toList]
          simp
        · rw [if_neg hrem, if_neg hrem]
          simp
      · rw [if_neg hc, if_neg hc]
        rw [ih (off + 400000) (by omega)]
    · rw [dif_neg hlt, dif_neg hlt]
      rfl

/-- C10: on the chunked path (audio longer than 30 s), a window whose
decode fails or returns empty text is skipped rather than propagated: the
call returns Ok with the join of exactly the nonempty successful window
texts, separated by single spaces; since every kept piece is a nonempty
trimmed text, the joined result has no leading or trailing separator, and
pieces being nonempty means no two inserted separators are adjacent. -/
theorem c10_chunked_skip_and_join (dec : ℕ → ℕ → Except Unit (List Char))
    (n : ℕ) (hn : 480000 < n)
    (htrim : ∀ o e t, dec o e = Except.ok t → trimChars t = t) :
    transcribeModel dec n = Except.ok (joinSep (transcribeChunkLoop dec n 0)) ∧
    (∀ t ∈ transcribeChunkLoop dec n 0, t ≠ [] ∧
      ∃ w ∈ transcribeWindows n 0, dec w.1 w.2 = Except.ok t) ∧
    (∀ c, (joinSep (transcribeChunkLoop dec n 0)).head? = some c →
      c.isWhitespace = false) ∧
    (∀ c, (joinSep (transcribeChunkLoop dec n 0)).getLast? = some c →
      c.isWhitespace = false) := by
  have hfm := transcribeChunkLoop_eq_filterMap dec n n 0 (by omega)
  have hmem : ∀ t ∈ transcribeChunkLoop dec n 0, t ≠ [] ∧
      ∃ w ∈ transcribeWindows n 0, dec w.1 w.2 = Except.ok t := by
    intro t ht
    rw [hfm, List.mem_filterMap] at ht
    obtain ⟨w, hw, hk⟩ := ht
    unfold keepText at hk
    cases hd : dec w.1 w.2 with
    | error e => rw [hd] at hk; simp at hk
    | ok t2 =>
      rw [hd] at hk
      by_cases ht2 : t2 = []
      · subst ht2; simp at hk
      · simp [ht2] at hk
        subst hk
        exact ⟨ht2, ⟨w, hw, hd⟩⟩
  have hne : ∀ p ∈ transcribeChunkLoop dec n 0, p ≠ [] :=
    fun p hp => (hmem p hp).1
  have htrimmed : ∀ p ∈ transcribeChunkLoop dec n 0, trimChars p = p := by
    intro p hp
    obtain ⟨w, _, hd⟩ := (hmem p hp).2
    exact htrim w.1 w.2 p hd
  refine ⟨?_, hmem, ?_, ?_⟩
  · unfold transcribeModel
    rw [if_neg (by omega), if_neg (by omega)]
  · intro c hc
    obtain ⟨p, hp, hh⟩ := joinSep_head_mem (transcribeChunkLoop dec n 0) c hne hc
    rw [← htrimmed p hp] at hh
    exact trimChars_head _ _ hh
  · intro c hc
    obtain ⟨p, hp, hh⟩ := joinSep_getLast_mem (transcribeChunkLoop dec n 0) c hne hc
    rw [← htrimmed p hp] at hh
    exact trimChars_getLast _ _ hh

/-- C10 witness: a concrete oracle decoding every window to a fixed
nonempty trimmed text, on 62.5 s of audio. -/
theorem c10_chunked_skip_and_join_witness :
    480000 < 1000000 ∧
    transcribeModel (fun _ _ => Except.ok ['h', 'i']) 1000000 =
      Except.ok (joinSep
        (transcribeChunkLoop (fun _ _ => Except.ok ['h', 'i']) 1000000 0)) :=
  ⟨by omega,
   (c10_chunked_skip_and_join (fun _ _ => Except.ok ['h', 'i']) 1000000 (by omega)
      (by intro o e t ht; injection ht with h1; rw [← h1]; decide)).1⟩

/-- The quality test of the source (fallback when the ratio exceeds the
threshold or the log-probability is under it) selects the same branch as
the inclusive acceptance test. -/
theorem fallback_branch_key (lp cr : ℚ) (X Y : Except Unit (List Char)) :
    (if cr > 24/10 ∨ lp < -1 then X else Y) =
    (if cr ≤ 24/10 ∧ -1 ≤ lp then Y else X) := by
  by_cases hq : cr ≤ 24/10 ∧ -1 ≤ lp
  · rw [if_pos hq, if_neg]
    push_neg
    exact hq
  · rw [if_neg hq, if_pos]
    rcases le_or_lt cr (24/10) with h | h
    · refine Or.inr ?_
      by_contra hlp
      push_neg at hlp
      exact hq ⟨h, hlp⟩
    · exact Or.inl h

/-- One-step unfolding of the fallback loop on a cons. -/
theorem fallbackGo_cons (attempt : ℚ → Except Unit (List Char × ℚ × ℚ))
    (i : ℕ) (temp : ℚ) (rest : List ℚ) :
    fallbackGo attempt i (temp :: rest) =
      match attempt temp with
      | Except.ok (text, lp, cr) =>
        if i = TEMPERATURES.length - 1 then Except.ok text
        else if cr > 24/10 ∨ lp < -1 then fallbackGo attempt (i + 1) rest
        else Except.ok text
      | Except.error _ => fallbackGo attempt (i + 1) rest := rfl

/-- One-step unfolding of the inclusive selection on a cons. -/
theorem fallbackAcceptedGo_cons (attempt : ℚ → Except Unit (List Char × ℚ × ℚ))
    (temp : ℚ) (rest : List ℚ) :
    fallbackAcceptedGo attempt (temp :: rest) =
      match attempt temp with
      | Except.ok (text, lp, cr) =>
        if cr ≤ 24/10 ∧ -1 ≤ lp then Except.ok text
        else fallbackAcceptedGo attempt rest
      | Except.error _ => fallbackAcceptedGo attempt rest := rfl

/-- Unfolding of the inclusive selection on the exhausted ladder. -/
theorem fallbackAcceptedGo_nil (attempt : ℚ → Except Unit (List Char × ℚ × ℚ)) :
    fallbackAcceptedGo attempt [] =
      match attempt 1 with
      | Except.ok (text, _, _) => Except.ok text
      | Except.error _ => Except.error () := rfl

/-- The enumerated fallback loop of the source equals the inclusive
first-passing selection over the non-final rungs, for every suffix of the
temperature ladder that still ends in the final temperature 1.0. -/
theorem fallbackGo_eq_accepted (attempt : ℚ → Except Unit (List Char × ℚ × ℚ)) :
    ∀ (ts : List ℚ) (i : ℕ), ts.getLast? = some 1 → i + ts.length = 6 →
      fallbackGo attempt i ts = fallbackAcceptedGo attempt ts.dropLast := by
  intro ts
  induction ts with
  | nil => intro i hlast _; simp at hlast
  | cons t rest ih =>
    intro i hlast hlen
    cases rest with
    | nil =>
      have hi : i = 5 := by simp at hlen; omega
      have ht : t = 1 := by simpa using hlast
      subst hi; subst ht
      show fallbackGo attempt 5 [1] = fallbackAcceptedGo attempt []
      rw [fallbackGo_cons, fallbackAcceptedGo_nil]
      cases h : attempt 1 with
      | error e => rfl
      | ok trip =>
        obtain ⟨text, lp, cr⟩ := trip
        dsimp only
        rw [if_pos (show (5 : ℕ) = TEMPERATURES.length - 1 by decide)]
    | cons t2 rest2 =>
      have hi5 : i ≠ 5 := by simp at hlen; omega
      have hlast2 : (t2 :: rest2).getLast? = some 1 := by
        rw [← hlast]; exact (List.getLast?_cons_cons).symm
      have hlen2 : (i + 1) + (t2 :: rest2).length = 6 := by
        simp at hlen ⊢; omega
      show fallbackGo attempt i (t :: t2 :: rest2) =
        fallbackAcceptedGo attempt ((t :: t2 :: rest2).dropLast)
      rw [show (t :: t2 :: rest2).dropLast = t :: (t2 :: rest2).dropLast by simp]
      rw [fallbackGo_cons, fallbackAcceptedGo_cons]
      cases h : attempt t with
      | error e =>
        dsimp only
        exact ih (i + 1) hlast2 hlen2
      | ok trip =>
        obtain ⟨text, lp, cr⟩ := trip
        dsimp only
        rw [if_neg (show ¬ (i = TEMPERATURES.length - 1) by
          simpa [TEMPERATURES] using hi5)]
        rw [fallback_branch_key lp cr]
        rw [ih (i + 1) hlast2 hlen2]

/-- One-step unfolding of the claim's strict selection on a cons. -/
theorem fallbackClaimGo_cons (attempt : ℚ → Except Unit (List Char × ℚ × ℚ))
    (temp : ℚ) (rest : List ℚ) :
    fallbackClaimGo attempt (temp :: rest) =
      match attempt temp with
      | Except.ok (text, lp, cr) =>
        if cr < 24/10 ∧ lp > -1 then Except.ok text
        else fallbackClaimGo attempt rest
      | Except.error _ => fallbackClaimGo attempt rest := rfl

/-- C4 counterexample: with an attempt whose temperature-0 decode sits
exactly on the thresholds (compression ratio 2.4, log-probability −1.0),
the code accepts the temperature-0 text, while the claim's strict
selection rule (ratio strictly below 2.4, log-probability strictly above
−1.0) picks the temperature-0.2 text instead. -/
theorem c4_boundary_counterexample :
    decodeWithFallback boundaryAttempt = Except.ok ['a'] ∧
    fallbackClaimSelection boundaryAttempt = Except.ok ['b'] ∧
    (['a'] : List Char) ≠ ['b'] := by
  refine ⟨?_, ?_, by decide⟩
  · unfold decodeWithFallback TEMPERATURES
    rw [fallbackGo_cons]
    rw [show boundaryAttempt 0 = Except.ok (['a'], -1, 24/10) from by
      simp [boundaryAttempt]]
    dsimp only
    rw [if_neg (by decide : ¬((0 : ℕ) = TEMPERATURES.length - 1))]
    rw [if_neg (by norm_num : ¬((24/10 : ℚ) > 24/10 ∨ (-1 : ℚ) < -1))]
  · unfold fallbackClaimSelection
    rw [show TEMPERATURES.take 5 = [0, 2/10, 4/10, 6/10, 8/10] from rfl]
    rw [fallbackClaimGo_cons]
    rw [show boundaryAttempt 0 = Except.ok (['a'], -1, 24/10) from by
      simp [boundaryAttempt]]
    dsimp only
    rw [if_neg (by norm_num : ¬((24/10 : ℚ) < 24/10 ∧ (-1 : ℚ) > -1))]
    rw [fallbackClaimGo_cons]
    rw [show boundaryAttempt (2/10) = Except.ok (['b'], 0, 0) from by
      norm_num [boundaryAttempt]]
    dsimp only
    rw [if_pos (by norm_num : (0 : ℚ) < 24/10 ∧ (0 : ℚ) > -1)]

/-- C4 amended: decode_with_fallback tries temperatures 0.0, 0.2, 0.4,
0.6, 0.8, 1.0 in ascending order, skips attempts that error, and returns
the text of the first attempt whose compression ratio is at most 2.4 and
whose average log-probability is at least −1.0; if no earlier rung
passes, the final rung's output is accepted unconditionally (and only if
the final rung also fails does the call error). -/
theorem c4_fallback_amended (attempt : ℚ → Except Unit (List Char × ℚ × ℚ)) :
    decodeWithFallback attempt = fallbackAcceptedSelection attempt := by
  have h := fallbackGo_eq_accepted attempt TEMPERATURES 0 (by rfl) (by rfl)
  unfold decodeWithFallback fallbackAcceptedSelection
  rw [h]
  rfl

/-- Averaging pairs ignores a sample appended after an even-length
prefix. -/
theorem avgPairs_append_even :
    ∀ (n : ℕ) (s : List ℚ) (x : ℚ), s.length ≤ n → s.length % 2 = 0 →
      avgPairs (s ++ [x]) = avgPairs s := by
  intro n
  induction n with
  | zero =>
    intro s x hle hev
    have hnil : s = [] := List.eq_nil_of_length_eq_zero (by omega)
    subst hnil
    simp [avgPairs]
  | succ n ih =>
    intro s x hle hev
    match s with
    | [] => simp [avgPairs]
    | [a] => simp at hev
    | a :: b :: rest =>
      show avgPairs (a :: b :: (rest ++ [x])) = avgPairs (a :: b :: rest)
      simp only [avgPairs]
      rw [ih rest x (by simp at hle; omega) (by simp at hev; omega)]

/-- The downmix of a pair-averaged buffer has half the samples. -/
theorem avgPairs_length :
    ∀ (n : ℕ) (s : List ℚ), s.length ≤ n → (avgPairs s).length = s.length / 2 := by
  intro n
  induction n with
  | zero =>
    intro s hle
    have hnil : s = [] := List.eq_nil_of_length_eq_zero (by omega)
    subst hnil
    simp [avgPairs]
  | succ n ih =>
    intro s hle
    match s with
    | [] => simp [avgPairs]
    | [a] => simp [avgPairs]
    | a :: b :: rest =>
      simp only [avgPairs, List.length_cons]
      rw [ih rest (by simp at hle; omega)]
      omega

/-- C7 counterexample: the stereo downmix of the odd-length interleaved
buffer [1, −1, 1/2] is [0]: the trailing unpaired sample 1/2 is dropped
by chunks_exact(2), so it is not kept unchanged in the output. -/
theorem c7_trailing_sample_counterexample :
    to_mono [1, -1, 1/2] 2 = [0] ∧
    (to_mono [1, -1, 1/2] 2).getLast? ≠ some (1/2) := by
  have h : to_mono [1, -1, 1/2] 2 = [0] := by
    unfold to_mono
    rw [if_pos rfl]
    simp only [avgPairs]
    norm_num
  refine ⟨h, ?_⟩
  rw [h]
  simp only [List.getLast?_singleton, ne_eq, Option.some.injEq]
  norm_num

/-- C7 amended: stereo-to-mono downmix averages each interleaved channel
pair — downmix of [(1.0, −1.0)] yields mono [0.0] — and for an odd-length
interleaved buffer the trailing unpaired sample is dropped: appending a
sample to an even-length buffer leaves the downmix unchanged, and the
output always has floor(len / 2) samples. -/
theorem c7_downmix_amended :
    to_mono [1, -1] 2 = [0] ∧
    (∀ (s : List ℚ) (x : ℚ), s.length % 2 = 0 →
      to_mono (s ++ [x]) 2 = to_mono s 2) ∧
    (∀ s : List ℚ, (to_mono s 2).length = s.length / 2) := by
  refine ⟨?_, ?_, ?_⟩
  · unfold to_mono
    rw [if_pos rfl]
    simp only [avgPairs]
    norm_num
  · intro s x hev
    unfold to_mono
    rw [if_pos rfl, if_pos rfl]
    exact avgPairs_append_even s.length s x le_rfl hev
  · intro s
    unfold to_mono
    rw [if_pos rfl]
    exact avgPairs_length s.length s le_rfl

/-- C7 witness: appending the unpaired sample 1/2 to the even buffer
[1, −1] leaves the downmix unchanged. -/
theorem c7_downmix_amended_witness :
    ([1, -1] : List ℚ).length % 2 = 0 ∧
    to_mono ([1, -1] ++ [1/2]) 2 = to_mono [1, -1] 2 :=
  ⟨by simp, c7_downmix_amended.2.1 [1, -1] (1/2) (by simp)⟩

end MojoVoice
